import Mathlib

/-!
Verification of the ChittyOS Google Workspace scripts
(`setup_workspace.py` and `quick_auth_setup.py`) against their
natural-language specification.

The Python scripts are straight-line procedures calling a remote API;
we embed them shallowly: the remote service and the filesystem become
explicit oracles (functions deciding which calls succeed), and each
procedure becomes a pure Lean function returning the trace of events it
performs (remote calls, console logs, file writes) together with its
result.  An uncaught Python exception is an `Except.error`.
-/

namespace SetupWorkspace

/-- A CSV row as produced by `csv.DictReader`: an association list from
column name to field value.  A key lookup that misses models a Python
`KeyError`.  (`DictReader` keys come from the header line, so a CSV whose
header lacks a required column yields rows missing that key.) -/
def Row : Type := List (String × String)

/-- Python `row[k]`: `some v` when the key is present, `none` models a
`KeyError` being raised. -/
def rowGet (row : Row) (k : String) : Option String :=
  match row with
  | [] => none
  | (k', v) :: rest => if k' = k then some v else rowGet rest k

/-- The body passed to `service.groups().insert(...)` in `create_groups`
(line 47-51 of `setup_workspace.py`). -/
structure GroupBody where
  email : String
  name : String
  description : String
deriving DecidableEq, Repr

/-- The body passed to `service.members().insert(...)` in `create_groups`
(line 60-63 of `setup_workspace.py`). -/
structure MemberBody where
  email : String
  role : String
deriving DecidableEq, Repr

/-- An observable event of `create_groups`: a remote insert call or a
console log line.  The remote calls carry exactly the data the script
sends. -/
inductive Event where
  | groupInsert (body : GroupBody)
  | memberInsert (groupKey : String) (body : MemberBody)
  | log (msg : String)
deriving DecidableEq, Repr

/-- The remote service as an oracle: `svc ev = true` means the call
denoted by `ev` returns normally, `false` means `.execute()` raises.
(Only queried on insert events.) -/
def Service : Type := Event → Bool

/-- An uncaught Python exception escaping a modelled function. -/
inductive PyErr where
  | keyError (key : String)
deriving DecidableEq, Repr

/-- The inner `for owner in owners` loop of `create_groups`
(lines 59-67): attempts one `members().insert` per owner, in order,
stopping at the first call that raises.  Returns the events performed
and whether the loop completed without an exception. -/
def memberLoop (svc : Service) (groupKey : String) :
    List String → List Event × Bool
  | [] => ([], true)
  | owner :: rest =>
      if svc (Event.memberInsert groupKey ⟨owner.trim, "OWNER"⟩) then
        (Event.memberInsert groupKey ⟨owner.trim, "OWNER"⟩ ::
            (memberLoop svc groupKey rest).1,
          (memberLoop svc groupKey rest).2)
      else ([Event.memberInsert groupKey ⟨owner.trim, "OWNER"⟩], false)

/-- Python `s.split(c)` for a one-character separator: splits at every
occurrence of `c`, keeping empty fields: splitting `a;;b` yields three
parts, and the empty string yields one empty part. -/
def pySplitAux (c : Char) : List Char → List Char → List String
  | [], acc => [String.mk acc.reverse]
  | x :: xs, acc =>
      if x = c then String.mk acc.reverse :: pySplitAux c xs []
      else pySplitAux c xs (x :: acc)

/-- Python `s.split(c)`; the source splits owners on a semicolon. -/
def pySplit (s : String) (c : Char) : List String := pySplitAux c s.data []

/-- The error line printed by the `except` block (line 70). -/
def errLog (groupEmail : String) : Event :=
  Event.log ("✗ Error creating " ++ groupEmail)

/-- The success line printed after a group insert (line 55). -/
def okLog (groupEmail : String) : Event :=
  Event.log ("✓ Created group: " ++ groupEmail)

/-- One iteration of the `for row in reader` loop of `create_groups`
(lines 46-70).  The `group_body` dict accesses (lines 47-51) happen
before the `try` block, so a missing `Group Email`, `Group Name` or
`Description` raises an uncaught `KeyError` (`Except.error`); everything
from line 53 on is inside the `try`, so exceptions there (including a
missing `Owners` key, line 58) are caught and turned into the error
log. -/
def processRow (svc : Service) (row : Row) : Except PyErr (List Event) :=
  match rowGet row "Group Email" with
  | none => Except.error (PyErr.keyError "Group Email")
  | some ge =>
    match rowGet row "Group Name" with
    | none => Except.error (PyErr.keyError "Group Name")
    | some gn =>
      match rowGet row "Description" with
      | none => Except.error (PyErr.keyError "Description")
      | some de =>
        let body : GroupBody := ⟨ge, gn, de⟩
        if svc (Event.groupInsert body) then
          match rowGet row "Owners" with
          | none =>
              Except.ok [Event.groupInsert body, okLog ge, errLog ge]
          | some ow =>
              if (memberLoop svc ge (pySplit ow ';')).2 then
                Except.ok (Event.groupInsert body :: okLog ge ::
                  (memberLoop svc ge (pySplit ow ';')).1)
              else
                Except.ok ((Event.groupInsert body :: okLog ge ::
                  (memberLoop svc ge (pySplit ow ';')).1) ++ [errLog ge])
        else
          Except.ok [Event.groupInsert body, errLog ge]

/-- `create_groups` (lines 41-70) over an already-parsed list of CSV
rows: iterates `processRow`; an uncaught exception in a row aborts the
loop (remaining rows are not processed) and escapes to the caller.
Returns the full event trace and the escaped exception, if any. -/
def create_groups (svc : Service) : List Row → List Event × Option PyErr
  | [] => ([], none)
  | row :: rest =>
    match processRow svc row with
    | Except.error e => ([], some e)
    | Except.ok t =>
        (t ++ (create_groups svc rest).1, (create_groups svc rest).2)

/-- A row containing all four required columns. -/
def wellFormed (row : Row) : Prop :=
  (rowGet row "Group Email").isSome ∧ (rowGet row "Group Name").isSome ∧
  (rowGet row "Description").isSome ∧ (rowGet row "Owners").isSome

instance (row : Row) : Decidable (wellFormed row) := by
  unfold wellFormed; infer_instance

/-- A row containing the three columns read before the `try` block. -/
def bodyComplete (row : Row) : Prop :=
  (rowGet row "Group Email").isSome ∧ (rowGet row "Group Name").isSome ∧
  (rowGet row "Description").isSome

instance (row : Row) : Decidable (bodyComplete row) := by
  unfold bodyComplete; infer_instance

/-- Number of group-insert calls in a trace. -/
def countGroup (t : List Event) : Nat :=
  t.countP (fun ev => match ev with
    | Event.groupInsert _ => true
    | _ => false)

/-- Number of member-insert calls in a trace. -/
def countMember (t : List Event) : Nat :=
  t.countP (fun ev => match ev with
    | Event.memberInsert _ _ => true
    | _ => false)

/-- The member-insert events of a trace, in order. -/
def memberEvents (t : List Event) : List Event :=
  t.filter (fun ev => match ev with
    | Event.memberInsert _ _ => true
    | _ => false)

/-- The owners listed in a row (the `Owners` field split on semicolons,
line 58), empty when
the column is missing. -/
def ownersOf (row : Row) : List String :=
  match rowGet row "Owners" with
  | some ow => pySplit ow ';'
  | none => []

/-- The cached credential loaded from `token.json`, as the google-auth
library presents it: the three attributes `authenticate` reads.
(`refresh_token` is truthiness of the attribute: `true` iff a refresh
token is present.) -/
structure Creds where
  valid : Bool
  expired : Bool
  refresh_token : Bool
deriving DecidableEq, Repr

/-- The environment `authenticate` (lines 21-39) runs in: whether
`token.json` exists, what `Credentials.from_authorized_user_file`
returns, and the credentials produced by a (successful) refresh and by
the interactive flow. -/
structure TokenEnv where
  tokenExists : Bool
  cachedCreds : Creds
  refreshedCreds : Creds
  flowCreds : Creds

/-- Observable actions of `authenticate`: loading the token file,
calling `creds.refresh`, running the interactive OAuth consent flow
(`flow.run_local_server`), and writing `token.json`. -/
inductive AuthAction where
  | loadToken
  | refresh
  | runFlow
  | writeToken
deriving DecidableEq, Repr

/-- `authenticate` (lines 21-39 of `setup_workspace.py`): load the
cached token when the file exists; return it unchanged when valid;
otherwise refresh (when expired with a refresh token) or run the
interactive flow, then write `token.json`.  Returns the action trace
and the credential handed to the caller. -/
def authenticate (env : TokenEnv) : List AuthAction × Creds :=
  if env.tokenExists then
    let c := env.cachedCreds
    if c.valid then ([AuthAction.loadToken], c)
    else if c.expired && c.refresh_token then
      ([AuthAction.loadToken, AuthAction.refresh, AuthAction.writeToken],
        env.refreshedCreds)
    else
      ([AuthAction.loadToken, AuthAction.runFlow, AuthAction.writeToken],
        env.flowCreds)
  else
    ([AuthAction.runFlow, AuthAction.writeToken], env.flowCreds)

end SetupWorkspace

namespace QuickAuth

/-- A credential obtained by `try_authentication`, tagged with its
provenance: Application Default Credentials, a service-account key file
at a given path, or ADC after the gcloud CLI login. -/
inductive Cred where
  | adcCred
  | saCred (path : String)
  | gcloudCred
deriving DecidableEq, Repr

/-- The three authentication methods of `try_authentication`, in their
documented order (ADC; each service-account path; gcloud CLI login). -/
inductive AuthMethod where
  | adc
  | serviceAccount (path : String)
  | gcloud
deriving DecidableEq, Repr

/-- The `service_account_paths` list (lines 39-43 of
`quick_auth_setup.py`); `os.path.expanduser` is left as the literal
home-relative path. -/
def sa_paths : List String :=
  ["service-account.json", "credentials.json",
   "~/.config/gcloud/service-account.json"]

/-- The environment `try_authentication` runs in.  Each `...Ok` field
says whether the corresponding credential-acquisition step returns
normally; `buildOk` and `probeOk` say, per credential, whether
`build(admin, directory_v1, ...)` and the domains-list probe
`service.domains().list(...).execute()`
succeed. -/
structure AuthEnv where
  adcOk : Bool
  fileExists : String → Bool
  saLoadOk : String → Bool
  gcloudDefaultOk : Bool
  buildOk : Cred → Bool
  probeOk : Cred → Bool

/-- A whole method succeeds when the credential is acquired, the client
builds, and the domains-list probe returns normally; any failure along
the way raises into that method's `except` block. -/
def methodOk (env : AuthEnv) : AuthMethod → Bool
  | AuthMethod.adc =>
      env.adcOk && env.buildOk Cred.adcCred && env.probeOk Cred.adcCred
  | AuthMethod.serviceAccount p =>
      env.saLoadOk p && env.buildOk (Cred.saCred p)
        && env.probeOk (Cred.saCred p)
  | AuthMethod.gcloud =>
      env.gcloudDefaultOk && env.buildOk Cred.gcloudCred
        && env.probeOk Cred.gcloudCred

/-- The credential a method yields when it succeeds. -/
def credOf : AuthMethod → Cred
  | AuthMethod.adc => Cred.adcCred
  | AuthMethod.serviceAccount p => Cred.saCred p
  | AuthMethod.gcloud => Cred.gcloudCred

/-- The `for path in service_account_paths` loop (lines 45-64): paths
whose file does not exist are skipped without an attempt; an existing
path is attempted, and the first success returns from the function.
Returns the attempted methods and the successful one, if any. -/
def trySAs (env : AuthEnv) : List String → List AuthMethod × Option AuthMethod
  | [] => ([], none)
  | p :: ps =>
    if env.fileExists p then
      if methodOk env (AuthMethod.serviceAccount p) then
        ([AuthMethod.serviceAccount p], some (AuthMethod.serviceAccount p))
      else
        let r := trySAs env ps
        (AuthMethod.serviceAccount p :: r.1, r.2)
    else trySAs env ps

/-- `try_authentication` (lines 14-80 of `quick_auth_setup.py`): try
ADC; when it raises, try each existing service-account path in order;
when all raise, run the gcloud CLI login and try ADC again; return
`(None, None)` (`none` here) when everything failed.  Returns the trace
of attempted methods and the credential returned to the caller. -/
def try_authentication (env : AuthEnv) : List AuthMethod × Option Cred :=
  if methodOk env AuthMethod.adc then
    ([AuthMethod.adc], some Cred.adcCred)
  else
    let r := trySAs env sa_paths
    match r.2 with
    | some m => (AuthMethod.adc :: r.1, some (credOf m))
    | none =>
      if methodOk env AuthMethod.gcloud then
        (AuthMethod.adc :: r.1 ++ [AuthMethod.gcloud], some Cred.gcloudCred)
      else
        (AuthMethod.adc :: r.1 ++ [AuthMethod.gcloud], none)

/-- Modelled from the spec: "All fallback authentication methods are
attempted in the fixed documented order until one succeeds or all are
exhausted."  An ordered strategy list evaluated until a method returns
a usable credential, skipping service-account paths whose file is
absent. -/
def specAttemptList (env : AuthEnv) : List AuthMethod :=
  (AuthMethod.adc ::
      (sa_paths.map AuthMethod.serviceAccount) ++ [AuthMethod.gcloud]).filter
    (fun m => match m with
      | AuthMethod.serviceAccount p => env.fileExists p
      | _ => true)

/-- Modelled from the spec: run down an ordered list of methods,
stopping at the first that succeeds; the trace of methods attempted
and the first successful one, if any. -/
def specRun (env : AuthEnv) :
    List AuthMethod → List AuthMethod × Option AuthMethod
  | [] => ([], none)
  | m :: ms =>
    if methodOk env m then ([m], some m)
    else
      let r := specRun env ms
      (m :: r.1, r.2)

end QuickAuth

namespace SetupWorkspace

/-- The row's `Group Email` field (defaults never fire on rows that
carry the column). -/
def geOf (row : Row) : String := (rowGet row "Group Email").getD ""

/-- The group-insert event a row gives rise to. -/
def groupEv (row : Row) : Event :=
  Event.groupInsert
    ⟨geOf row, (rowGet row "Group Name").getD "",
      (rowGet row "Description").getD ""⟩

/-- The member-insert event for one owner string of a row. -/
def mkMem (groupKey : String) (owner : String) : Event :=
  Event.memberInsert groupKey ⟨owner.trim, "OWNER"⟩

/-- The events a single row contributes when its iteration does not
raise an uncaught exception. -/
def rowTrace (svc : Service) (row : Row) : List Event :=
  match processRow svc row with
  | Except.ok t => t
  | Except.error _ => []

/-- The owners whose member insert is actually attempted: the prefix of
the owner list up to and including the first owner whose insert
raises. -/
def attempted (svc : Service) (groupKey : String) :
    List String → List String
  | [] => []
  | owner :: rest =>
      if svc (mkMem groupKey owner) then
        owner :: attempted svc groupKey rest
      else [owner]

/-- A concrete well-formed row with a single owner. -/
def row1 : Row :=
  [("Group Email", "g@x.com"), ("Group Name", "G"),
   ("Description", "D"), ("Owners", "o@x.com")]

/-- A service for which every group insert raises and every member
insert succeeds. -/
def svcGroupFail : Service := fun ev =>
  match ev with
  | Event.groupInsert _ => false
  | _ => true

/-- A concrete row missing the `Description` column. -/
def rowNoDescription : Row :=
  [("Group Email", "bad@x.com"), ("Group Name", "B"),
   ("Owners", "o@x.com")]

/-- A concrete row missing only the `Owners` column. -/
def rowNoOwners : Row :=
  [("Group Email", "n@x.com"), ("Group Name", "N"), ("Description", "D")]

/-- A service for which every call succeeds. -/
def svcAllOk : Service := fun _ => true

/-- A concrete cached-token environment whose credential is expired
with a refresh token. -/
def envExpired : TokenEnv :=
  { tokenExists := true
    cachedCreds := { valid := false, expired := true, refresh_token := true }
    refreshedCreds := { valid := true, expired := false, refresh_token := true }
    flowCreds := { valid := true, expired := false, refresh_token := true } }

/-- A concrete cached-token environment whose credential is valid. -/
def envValid : TokenEnv :=
  { tokenExists := true
    cachedCreds := { valid := true, expired := false, refresh_token := true }
    refreshedCreds := { valid := true, expired := false, refresh_token := true }
    flowCreds := { valid := true, expired := false, refresh_token := true } }

/-- A concrete environment with no cached token. -/
def envNoToken : TokenEnv :=
  { tokenExists := false
    cachedCreds := { valid := false, expired := false, refresh_token := false }
    refreshedCreds := { valid := true, expired := false, refresh_token := true }
    flowCreds := { valid := true, expired := false, refresh_token := false } }

end SetupWorkspace

namespace QuickAuth

/-- A concrete environment in which every authentication step fails
and no service-account file exists. -/
def envAllFail : AuthEnv :=
  { adcOk := false
    fileExists := fun _ => false
    saLoadOk := fun _ => false
    gcloudDefaultOk := false
    buildOk := fun _ => false
    probeOk := fun _ => false }

/-- A concrete environment in which every authentication step
succeeds. -/
def envAllOk : AuthEnv :=
  { adcOk := true
    fileExists := fun _ => true
    saLoadOk := fun _ => true
    gcloudDefaultOk := true
    buildOk := fun _ => true
    probeOk := fun _ => true }

end QuickAuth

namespace QuickAuth

/-- A record of the `domains` list response; the diagnostic prints its
`domainName` and `verified` fields (line 91). -/
structure DomainRec where
  domainName : String
  verified : Bool
deriving DecidableEq, Repr

/-- The read-only Directory API calls `test_workspace_access` issues. -/
inductive WsCall where
  | listDomains
  | listUsers
  | listGroups
deriving DecidableEq, Repr

/-- The environment of `test_workspace_access`: each field is the
outcome of one `.list(...).execute()` call — `Except.error` when the
call raises, otherwise the response dict, in which the payload key
(`domains` / `users` / `groups`) may be absent (`none`), read via
`.get(key, [])`.  User and group entries are opaque to the code (only
their count is used), so they are modelled as `Unit`. -/
structure WsEnv where
  domainsResp : Except Unit (Option (List DomainRec))
  usersResp : Except Unit (Option (List Unit))
  groupsResp : Except Unit (Option (List Unit))

/-- Python `str` of a boolean, as interpolated into the domain line. -/
def pyBoolStr (b : Bool) : String := if b then "True" else "False"

/-- The error line printed by the `except` block (line 104). -/
def wsFailMsg : String := "❌ Workspace access test failed"

/-- `test_workspace_access` (lines 82-105 of `quick_auth_setup.py`):
list domains, users and groups in that order, printing a count line for
each (and one line per domain); the first call that raises jumps to the
`except` block, which prints the error and returns `False`; on full
success it returns `True`.  Returns the issued calls, the printed
lines, and the boolean result. -/
def test_workspace_access (env : WsEnv) : List WsCall × List String × Bool :=
  match env.domainsResp with
  | Except.error _ => ([WsCall.listDomains], [wsFailMsg], false)
  | Except.ok dsOpt =>
    let ds := dsOpt.getD []
    let out1 := ("✅ Found " ++ toString ds.length ++ " domains:") ::
      ds.map (fun d =>
        "   • " ++ d.domainName ++ " (" ++ pyBoolStr d.verified ++ ")")
    match env.usersResp with
    | Except.error _ =>
        ([WsCall.listDomains, WsCall.listUsers], out1 ++ [wsFailMsg], false)
    | Except.ok usOpt =>
      let us := usOpt.getD []
      let out2 := out1 ++
        ["✅ Found " ++ toString us.length ++ " users (showing first 10)"]
      match env.groupsResp with
      | Except.error _ =>
          ([WsCall.listDomains, WsCall.listUsers, WsCall.listGroups],
            out2 ++ [wsFailMsg], false)
      | Except.ok gsOpt =>
        let gs := gsOpt.getD []
        ([WsCall.listDomains, WsCall.listUsers, WsCall.listGroups],
          out2 ++
            ["✅ Found " ++ toString gs.length ++ " groups (showing first 10)"],
          true)

end QuickAuth

namespace SetupWorkspace

/-- C5: when `token.json` exists and the cached credential is valid,
`authenticate` returns it as-is after only the load: no interactive
flow (`run_local_server`) occurs. -/
theorem c5_cached_valid_no_prompt (env : TokenEnv)
    (hex : env.tokenExists = true) (hv : env.cachedCreds.valid = true) :
    authenticate env = ([AuthAction.loadToken], env.cachedCreds) ∧
    AuthAction.runFlow ∉ (authenticate env).1 := by
  simp [authenticate, hex, hv]

theorem c5_witness :
    envValid.tokenExists = true ∧ envValid.cachedCreds.valid = true ∧
    (authenticate envValid = ([AuthAction.loadToken], envValid.cachedCreds) ∧
      AuthAction.runFlow ∉ (authenticate envValid).1) :=
  ⟨rfl, rfl, c5_cached_valid_no_prompt envValid rfl rfl⟩

/-- C4: when `token.json` exists and the cached credential is expired
with a refresh token (hence, by the google-auth invariant
`valid = token set ∧ not expired`, not valid), a refresh is attempted
and the interactive flow is never entered. -/
theorem c4_expired_refresh_first (env : TokenEnv)
    (hex : env.tokenExists = true) (hv : env.cachedCreds.valid = false)
    (he : env.cachedCreds.expired = true)
    (hr : env.cachedCreds.refresh_token = true) :
    AuthAction.refresh ∈ (authenticate env).1 ∧
    AuthAction.runFlow ∉ (authenticate env).1 := by
  simp [authenticate, hex, hv, he, hr]

theorem c4_witness :
    envExpired.tokenExists = true ∧ envExpired.cachedCreds.expired = true ∧
    envExpired.cachedCreds.refresh_token = true ∧
    (AuthAction.refresh ∈ (authenticate envExpired).1 ∧
      AuthAction.runFlow ∉ (authenticate envExpired).1) :=
  ⟨rfl, rfl, rfl, c4_expired_refresh_first envExpired rfl rfl rfl rfl⟩

/-- C8: whenever the interactive OAuth flow runs, `token.json` is
written; and when the cached token is loaded and already valid, no
file is written at all.  (In the embedding, `writeToken` is the only
state-persisting action `authenticate` can perform, matching the
source, whose only file write opens `token.json`.) -/
theorem c8_token_write (env : TokenEnv) :
    (AuthAction.runFlow ∈ (authenticate env).1 →
      AuthAction.writeToken ∈ (authenticate env).1) ∧
    (env.tokenExists = true → env.cachedCreds.valid = true →
      AuthAction.writeToken ∉ (authenticate env).1) := by
  obtain ⟨te, ⟨v, e, r⟩, rc, fc⟩ := env
  cases te <;> cases v <;> cases e <;> cases r <;>
    simp [authenticate]

theorem c8_witness :
    AuthAction.writeToken ∈ (authenticate envNoToken).1 ∧
    AuthAction.writeToken ∉ (authenticate envValid).1 :=
  ⟨(c8_token_write envNoToken).1 (by decide),
    (c8_token_write envValid).2 rfl rfl⟩

end SetupWorkspace

namespace QuickAuth

/-- C7: when all three list calls return, the printed count lines carry
exactly the lengths of the returned lists and the result is `True`;
when any of the calls raises, the exception is caught and the result is
`False` (no crash: the function still returns); and in every case the
calls issued are among the three read-only list calls, so no remote
state is mutated. -/
theorem c7_access_test (env : WsEnv) :
    (∀ ds us gs, env.domainsResp = Except.ok (some ds) →
      env.usersResp = Except.ok (some us) →
      env.groupsResp = Except.ok (some gs) →
      (test_workspace_access env).2.2 = true ∧
      ("✅ Found " ++ toString ds.length ++ " domains:")
          ∈ (test_workspace_access env).2.1 ∧
      ("✅ Found " ++ toString us.length ++ " users (showing first 10)")
          ∈ (test_workspace_access env).2.1 ∧
      ("✅ Found " ++ toString gs.length ++ " groups (showing first 10)")
          ∈ (test_workspace_access env).2.1) ∧
    ((env.domainsResp.isOk = false ∨ env.usersResp.isOk = false ∨
        env.groupsResp.isOk = false) →
      (test_workspace_access env).2.2 = false ∧
      wsFailMsg ∈ (test_workspace_access env).2.1) ∧
    (test_workspace_access env).1.Sublist
      [WsCall.listDomains, WsCall.listUsers, WsCall.listGroups] := by
  obtain ⟨d, u, g⟩ := env
  refine ⟨?_, ?_, ?_⟩
  · intro ds us gs hd hu hg
    simp only at hd hu hg
    subst hd; subst hu; subst hg
    simp [test_workspace_access]
  · intro h
    cases d <;> cases u <;> cases g <;>
      simp_all [test_workspace_access, Except.isOk, Except.toBool]
  · cases d <;> cases u <;> cases g <;>
      simp only [test_workspace_access] <;> decide

/-- A concrete all-successful environment for the access test. -/
theorem c7_witness :
    (test_workspace_access
        { domainsResp := Except.ok (some [⟨"x.com", true⟩])
          usersResp := Except.ok (some [(), ()])
          groupsResp := Except.ok (some []) }).2.2 = true ∧
    ("✅ Found 1 domains:") ∈ (test_workspace_access
        { domainsResp := Except.ok (some [⟨"x.com", true⟩])
          usersResp := Except.ok (some [(), ()])
          groupsResp := Except.ok (some []) }).2.1 ∧
    (test_workspace_access
        { domainsResp := Except.error ()
          usersResp := Except.ok (some [])
          groupsResp := Except.ok (some []) }).2.2 = false := by
  refine ⟨?_, ?_, ?_⟩
  · exact ((c7_access_test _).1 [⟨"x.com", true⟩] [(), ()] [] rfl rfl rfl).1
  · exact ((c7_access_test _).1 [⟨"x.com", true⟩] [(), ()] [] rfl rfl rfl).2.1
  · exact ((c7_access_test
      { domainsResp := Except.error ()
        usersResp := Except.ok (some [])
        groupsResp := Except.ok (some []) }).2.1 (Or.inl rfl)).1

end QuickAuth

namespace SetupWorkspace

theorem wellFormed_bodyComplete {row : Row} (h : wellFormed row) :
    bodyComplete row :=
  ⟨h.1, h.2.1, h.2.2.1⟩

theorem memberLoop_fst (svc : Service) (ge : String) (os : List String) :
    (memberLoop svc ge os).1 = (attempted svc ge os).map (mkMem ge) := by
  induction os with
  | nil => rfl
  | cons o rest ih =>
    by_cases h : svc (Event.memberInsert ge ⟨o.trim, "OWNER"⟩) <;>
      simp [memberLoop, attempted, mkMem, h, ih]

theorem attempted_isPre (svc : Service) (ge : String) (os : List String) :
    attempted svc ge os <+: os := by
  induction os with
  | nil => simp [attempted]
  | cons o rest ih =>
    by_cases h : svc (mkMem ge o)
    · simp only [attempted, if_pos h]
      obtain ⟨t, ht⟩ := ih
      exact ⟨t, by rw [List.cons_append, ht]⟩
    · simp only [attempted, if_neg h]
      exact ⟨rest, rfl⟩

theorem memberLoop_init_ok (svc : Service) (ge : String) (os : List String) :
    ∀ pre ev post, (memberLoop svc ge os).1 = pre ++ ev :: post →
      post ≠ [] → svc ev = true := by
  induction os with
  | nil =>
    intro pre ev post h _
    simp [memberLoop] at h
  | cons o rest ih =>
    intro pre ev post h hne
    by_cases hs : svc (Event.memberInsert ge ⟨o.trim, "OWNER"⟩)
    · rw [memberLoop, if_pos hs] at h
      cases pre with
      | nil =>
        simp only [List.nil_append, List.cons.injEq] at h
        exact h.1 ▸ hs
      | cons p pre =>
        simp only [List.cons_append, List.cons.injEq] at h
        exact ih pre ev post h.2 hne
    · rw [memberLoop, if_neg hs] at h
      cases pre with
      | nil =>
        simp only [List.nil_append, List.cons.injEq] at h
        exact absurd h.2.symm hne
      | cons p pre =>
        simp only [List.cons_append, List.cons.injEq] at h
        exact absurd h.2.symm (List.append_ne_nil_of_right_ne_nil _
          (List.cons_ne_nil _ _))

theorem memberEvents_memberLoop (svc : Service) (ge : String)
    (os : List String) :
    memberEvents (memberLoop svc ge os).1 = (memberLoop svc ge os).1 := by
  induction os with
  | nil => rfl
  | cons o rest ih =>
    by_cases h : svc (Event.memberInsert ge ⟨o.trim, "OWNER"⟩) <;>
      simp [memberLoop, memberEvents, h] <;>
      simpa [memberEvents] using ih

theorem countGroup_memberLoop (svc : Service) (ge : String)
    (os : List String) :
    countGroup (memberLoop svc ge os).1 = 0 := by
  induction os with
  | nil => rfl
  | cons o rest ih =>
    by_cases h : svc (Event.memberInsert ge ⟨o.trim, "OWNER"⟩) <;>
      simp [memberLoop, countGroup, h] <;>
      simpa [countGroup] using ih

theorem countMember_map_mkMem (ge : String) (l : List String) :
    countMember (l.map (mkMem ge)) = l.length := by
  induction l with
  | nil => rfl
  | cons o rest ih => simp [countMember, mkMem, List.countP_cons] at ih ⊢

theorem processRow_isOk (svc : Service) (row : Row) (h : bodyComplete row) :
    ∃ t, processRow svc row = Except.ok t := by
  obtain ⟨h1, h2, h3⟩ := h
  rw [Option.isSome_iff_exists] at h1 h2 h3
  obtain ⟨ge, hge⟩ := h1
  obtain ⟨gn, hgn⟩ := h2
  obtain ⟨de, hde⟩ := h3
  simp only [processRow, hge, hgn, hde]
  split
  · split
    · exact ⟨_, rfl⟩
    · split
      · exact ⟨_, rfl⟩
      · exact ⟨_, rfl⟩
  · exact ⟨_, rfl⟩

theorem processRow_eq (svc : Service) (row : Row) (h : bodyComplete row) :
    processRow svc row = Except.ok (rowTrace svc row) := by
  obtain ⟨t, ht⟩ := processRow_isOk svc row h
  rw [ht]
  simp [rowTrace, ht]

theorem create_groups_eq (svc : Service) (rows : List Row)
    (h : ∀ r ∈ rows, bodyComplete r) :
    create_groups svc rows = ((rows.map (rowTrace svc)).flatten, none) := by
  induction rows with
  | nil => rfl
  | cons r rest ih =>
    have hr : bodyComplete r := h r (by simp)
    have hrest : ∀ x ∈ rest, bodyComplete x := fun x hx => h x (by simp [hx])
    simp [create_groups, processRow_eq svc r hr, ih hrest]

end SetupWorkspace

namespace SetupWorkspace

theorem rowTrace_fail (svc : Service) (row : Row) (h : bodyComplete row)
    (hs : svc (groupEv row) = false) :
    rowTrace svc row = [groupEv row, errLog (geOf row)] := by
  obtain ⟨h1, h2, h3⟩ := h
  rw [Option.isSome_iff_exists] at h1 h2 h3
  obtain ⟨ge, hge⟩ := h1
  obtain ⟨gn, hgn⟩ := h2
  obtain ⟨de, hde⟩ := h3
  have hgev : groupEv row = Event.groupInsert ⟨ge, gn, de⟩ := by
    simp [groupEv, geOf, hge, hgn, hde]
  have hgeo : geOf row = ge := by simp [geOf, hge]
  rw [hgev] at hs
  simp [rowTrace, processRow, hge, hgn, hde, hs, hgev, hgeo]

theorem rowTrace_head (svc : Service) (row : Row) (h : bodyComplete row) :
    (rowTrace svc row).head? = some (groupEv row) := by
  obtain ⟨h1, h2, h3⟩ := h
  rw [Option.isSome_iff_exists] at h1 h2 h3
  obtain ⟨ge, hge⟩ := h1
  obtain ⟨gn, hgn⟩ := h2
  obtain ⟨de, hde⟩ := h3
  have hgev : groupEv row = Event.groupInsert ⟨ge, gn, de⟩ := by
    simp [groupEv, geOf, hge, hgn, hde]
  rw [hgev]
  by_cases hs : svc (Event.groupInsert ⟨ge, gn, de⟩)
  · cases how : rowGet row "Owners" with
    | none => simp [rowTrace, processRow, hge, hgn, hde, hs, how]
    | some ow =>
      by_cases hml : (memberLoop svc ge (pySplit ow ';')).2 <;>
        simp [rowTrace, processRow, hge, hgn, hde, hs, how, hml]
  · simp [rowTrace, processRow, hge, hgn, hde, hs]

theorem memberEvents_rowTrace (svc : Service) (row : Row)
    (h : bodyComplete row) :
    memberEvents (rowTrace svc row) =
      if svc (groupEv row) then
        (memberLoop svc (geOf row) (ownersOf row)).1
      else [] := by
  obtain ⟨h1, h2, h3⟩ := h
  rw [Option.isSome_iff_exists] at h1 h2 h3
  obtain ⟨ge, hge⟩ := h1
  obtain ⟨gn, hgn⟩ := h2
  obtain ⟨de, hde⟩ := h3
  have hgev : groupEv row = Event.groupInsert ⟨ge, gn, de⟩ := by
    simp [groupEv, geOf, hge, hgn, hde]
  have hgeo : geOf row = ge := by simp [geOf, hge]
  rw [hgev, hgeo]
  by_cases hs : svc (Event.groupInsert ⟨ge, gn, de⟩)
  · cases how : rowGet row "Owners" with
    | none =>
      simp [rowTrace, processRow, hge, hgn, hde, hs, how, ownersOf,
        memberEvents, memberLoop, okLog, errLog]
    | some ow =>
      have hown : ownersOf row = pySplit ow ';' := by simp [ownersOf, how]
      by_cases hml : (memberLoop svc ge (pySplit ow ';')).2 <;>
        simp [rowTrace, processRow, hge, hgn, hde, hs, how, hown, hml,
          memberEvents, okLog, errLog] <;>
        simpa [memberEvents] using memberEvents_memberLoop svc ge
          (pySplit ow ';')
  · simp [rowTrace_fail svc row ⟨by simp [hge], by simp [hgn], by simp [hde]⟩
      (by rw [hgev]; exact Bool.not_eq_true _ ▸ (by simpa using hs)),
      memberEvents, hs, hgev, errLog]

theorem countGroup_rowTrace (svc : Service) (row : Row)
    (h : bodyComplete row) :
    countGroup (rowTrace svc row) = 1 := by
  obtain ⟨h1, h2, h3⟩ := h
  rw [Option.isSome_iff_exists] at h1 h2 h3
  obtain ⟨ge, hge⟩ := h1
  obtain ⟨gn, hgn⟩ := h2
  obtain ⟨de, hde⟩ := h3
  by_cases hs : svc (Event.groupInsert ⟨ge, gn, de⟩)
  · cases how : rowGet row "Owners" with
    | none =>
      simp [rowTrace, processRow, hge, hgn, hde, hs, how, countGroup,
        okLog, errLog]
    | some ow =>
      by_cases hml : (memberLoop svc ge (pySplit ow ';')).2 <;>
        simp [rowTrace, processRow, hge, hgn, hde, hs, how, hml,
          countGroup, okLog, errLog, List.countP_cons] <;>
        simpa [countGroup] using countGroup_memberLoop svc ge (pySplit ow ';')
  · simp [rowTrace, processRow, hge, hgn, hde, hs, countGroup, errLog]

end SetupWorkspace

namespace SetupWorkspace

theorem countGroup_flatten (svc : Service) (rows : List Row)
    (h : ∀ r ∈ rows, bodyComplete r) :
    countGroup ((rows.map (rowTrace svc)).flatten) = rows.length := by
  induction rows with
  | nil => rfl
  | cons r rest ih =>
    have hr : bodyComplete r := h r (by simp)
    have hrest : ∀ x ∈ rest, bodyComplete x := fun x hx => h x (by simp [hx])
    simp only [List.map_cons, List.flatten_cons, countGroup,
      List.countP_append]
    have h1 := countGroup_rowTrace svc r hr
    have h2 := ih hrest
    simp only [countGroup] at h1 h2
    simp [h1, h2]
    omega

theorem memberLoop_all_ok (svc : Service) (ge : String)
    (hs : ∀ ev, svc ev = true) (os : List String) :
    memberLoop svc ge os = (os.map (mkMem ge), true) := by
  induction os with
  | nil => rfl
  | cons o rest ih => simp [memberLoop, hs, ih, mkMem]

theorem countMember_rowTrace_all_ok (svc : Service) (row : Row)
    (hs : ∀ ev, svc ev = true) (h : wellFormed row) :
    countMember (rowTrace svc row) = (ownersOf row).length := by
  obtain ⟨h1, h2, h3, h4⟩ := h
  rw [Option.isSome_iff_exists] at h1 h2 h3 h4
  obtain ⟨ge, hge⟩ := h1
  obtain ⟨gn, hgn⟩ := h2
  obtain ⟨de, hde⟩ := h3
  obtain ⟨ow, how⟩ := h4
  have hml := memberLoop_all_ok svc ge hs (pySplit ow ';')
  have hc := countMember_map_mkMem ge (pySplit ow ';')
  simp only [countMember] at hc
  simp [rowTrace, processRow, hge, hgn, hde, how, hs, hml, ownersOf,
    countMember, okLog, List.countP_cons, hc]

theorem countMember_flatten_all_ok (svc : Service) (rows : List Row)
    (hs : ∀ ev, svc ev = true) (h : ∀ r ∈ rows, wellFormed r) :
    countMember ((rows.map (rowTrace svc)).flatten) =
      (rows.map (fun r => (ownersOf r).length)).sum := by
  induction rows with
  | nil => rfl
  | cons r rest ih =>
    have hr : wellFormed r := h r (by simp)
    have hrest : ∀ x ∈ rest, wellFormed x := fun x hx => h x (by simp [hx])
    simp only [List.map_cons, List.flatten_cons, countMember,
      List.countP_append, List.sum_cons]
    have h1 := countMember_rowTrace_all_ok svc r hs hr
    have h2 := ih hrest
    simp only [countMember] at h1 h2
    simp [h1, h2]

/-- C6: for rows whose three group-body columns are present, every
exception a remote insert raises is caught: `create_groups` never
propagates one (`none`), every row's group insert is still attempted
(the count of group-insert calls equals the row count, so the loop
reaches every row), a failed group insert is logged with the row's
error line, and within a row no call is retried: the group insert
happens exactly once and the member-insert events are a prefix of the
one-call-per-owner list. -/
theorem c6_per_row_isolation (svc : Service) (rows : List Row)
    (h : ∀ r ∈ rows, bodyComplete r) :
    (create_groups svc rows).2 = none ∧
    countGroup (create_groups svc rows).1 = rows.length ∧
    (∀ r ∈ rows, svc (groupEv r) = false →
      errLog (geOf r) ∈ (create_groups svc rows).1) ∧
    (∀ r ∈ rows, countGroup (rowTrace svc r) = 1 ∧
      memberEvents (rowTrace svc r) <+:
        (ownersOf r).map (mkMem (geOf r))) := by
  rw [create_groups_eq svc rows h]
  refine ⟨rfl, countGroup_flatten svc rows h, ?_, ?_⟩
  · intro r hr hfail
    have hmem : errLog (geOf r) ∈ rowTrace svc r := by
      rw [rowTrace_fail svc r (h r hr) hfail]
      simp
    exact List.mem_flatten.mpr
      ⟨rowTrace svc r, List.mem_map_of_mem (rowTrace svc) hr, hmem⟩
  · intro r hr
    refine ⟨countGroup_rowTrace svc r (h r hr), ?_⟩
    rw [memberEvents_rowTrace svc r (h r hr)]
    by_cases hs : svc (groupEv r)
    · rw [if_pos hs, memberLoop_fst svc (geOf r) (ownersOf r)]
      exact (attempted_isPre svc (geOf r) (ownersOf r)).map (mkMem (geOf r))
    · rw [if_neg hs]
      exact List.nil_prefix

theorem c6_witness :
    (create_groups svcGroupFail [row1]).2 = none ∧
    countGroup (create_groups svcGroupFail [row1]).1 = 1 ∧
    errLog (geOf row1) ∈ (create_groups svcGroupFail [row1]).1 := by
  have h := c6_per_row_isolation svcGroupFail [row1] (by decide)
  exact ⟨h.1, h.2.1, h.2.2.1 row1 (by simp) rfl⟩

end SetupWorkspace

namespace SetupWorkspace

/-- C1 counterexample: one well-formed row with one listed owner, whose
group insert raises.  The claim demands one member-insert attempt for
the owner "regardless of whether any individual remote call fails", but
the member loop sits inside the same `try` after the group insert, so
zero member inserts are attempted. -/
theorem c1_counterexample :
    wellFormed row1 ∧ (ownersOf row1).length = 1 ∧
    countGroup (create_groups svcGroupFail [row1]).1 = 1 ∧
    countMember (create_groups svcGroupFail [row1]).1 = 0 := by
  exact ⟨by decide, by decide, by decide, by decide⟩

theorem attempted_all_ok (svc : Service) (ge : String) (os : List String)
    (h : ∀ o ∈ os, svc (mkMem ge o) = true) : attempted svc ge os = os := by
  induction os with
  | nil => rfl
  | cons o rest ih =>
    have h0 : svc (mkMem ge o) = true := h o (by simp)
    have hrest : ∀ x ∈ rest, svc (mkMem ge x) = true :=
      fun x hx => h x (by simp [hx])
    simp [attempted, h0, ih hrest]

theorem countMember_eq_len (t : List Event) :
    countMember t = (memberEvents t).length := by
  simp [countMember, memberEvents, List.countP_eq_length_filter]

/-- C1 as amended: for a CSV of N well-formed rows, exactly N
group-insert calls are attempted (one per row) regardless of
individual failures, and the trace is the rows' traces concatenated in
order.  Within each row: a raising group insert means no member insert
is attempted; when the group insert succeeds, the member inserts
attempted are exactly the owners up to and including the first one
whose insert raises (in listed order, an ordered prefix of the
one-call-per-owner list, every attempted member call but possibly the
last having succeeded); hence if the row's group insert and every
owner's member insert succeed, exactly one member-insert call is
attempted per listed owner. -/
theorem c1_amended (svc : Service) (rows : List Row)
    (h : ∀ r ∈ rows, wellFormed r) :
    countGroup (create_groups svc rows).1 = rows.length ∧
    (create_groups svc rows).1 = (rows.map (rowTrace svc)).flatten ∧
    ∀ r ∈ rows,
      countGroup (rowTrace svc r) = 1 ∧
      (svc (groupEv r) = false → memberEvents (rowTrace svc r) = []) ∧
      (svc (groupEv r) = true →
        memberEvents (rowTrace svc r) =
          (attempted svc (geOf r) (ownersOf r)).map (mkMem (geOf r))) ∧
      memberEvents (rowTrace svc r) <+:
        (ownersOf r).map (mkMem (geOf r)) ∧
      (∀ pre ev post,
        memberEvents (rowTrace svc r) = pre ++ ev :: post →
        post ≠ [] → svc ev = true) ∧
      (svc (groupEv r) = true →
        (∀ o ∈ ownersOf r, svc (mkMem (geOf r) o) = true) →
        countMember (rowTrace svc r) = (ownersOf r).length) := by
  have hbc : ∀ r ∈ rows, bodyComplete r :=
    fun r hr => wellFormed_bodyComplete (h r hr)
  refine ⟨?_, ?_, ?_⟩
  · rw [create_groups_eq svc rows hbc]
    exact countGroup_flatten svc rows hbc
  · rw [create_groups_eq svc rows hbc]
  · intro r hr
    have hbcr : bodyComplete r := hbc r hr
    have hme := memberEvents_rowTrace svc r hbcr
    refine ⟨countGroup_rowTrace svc r hbcr, ?_, ?_, ?_, ?_, ?_⟩
    · intro hfail
      rw [hme, if_neg (by simp [hfail])]
    · intro hs
      rw [hme, if_pos hs]
      exact memberLoop_fst svc (geOf r) (ownersOf r)
    · rw [hme]
      by_cases hs : svc (groupEv r)
      · rw [if_pos hs, memberLoop_fst svc (geOf r) (ownersOf r)]
        exact (attempted_isPre svc (geOf r) (ownersOf r)).map (mkMem (geOf r))
      · rw [if_neg hs]
        exact List.nil_prefix
    · intro pre ev post hsplit hne
      rw [hme] at hsplit
      by_cases hs : svc (groupEv r)
      · rw [if_pos hs] at hsplit
        exact memberLoop_init_ok svc (geOf r) (ownersOf r) pre ev post
          hsplit hne
      · rw [if_neg hs] at hsplit
        exact absurd hsplit.symm (List.append_ne_nil_of_right_ne_nil _
          (List.cons_ne_nil _ _))
    · intro hs hall
      rw [countMember_eq_len, hme, if_pos hs,
        memberLoop_fst svc (geOf r) (ownersOf r),
        attempted_all_ok svc (geOf r) (ownersOf r) hall, List.length_map]

theorem c1_amended_witness :
    countGroup (create_groups svcAllOk [row1]).1 = 1 ∧
    countMember (rowTrace svcAllOk row1) = (ownersOf row1).length := by
  have h := c1_amended svcAllOk [row1] (by decide)
  exact ⟨h.1, (h.2.2 row1 (by simp)).2.2.2.2.2 rfl (by decide)⟩

/-- C2 counterexample: a row missing the `Description` column followed
by a well-formed row.  The claim says the bad row's error is caught and
the next row still processed; in the code the `group_body` dict access
happens before the `try`, so the `KeyError` escapes `create_groups`
and the second row is never processed (empty trace, propagated
error). -/
theorem c2_counterexample :
    rowGet rowNoDescription "Description" = none ∧ wellFormed row1 ∧
    create_groups svcAllOk [rowNoDescription, row1] =
      ([], some (PyErr.keyError "Description")) := by
  exact ⟨by decide, by decide, by decide⟩

/-- C2 as amended: a row missing only `Owners` raises inside the `try`,
the error is caught (the row's error line is logged) and every
subsequent row is still processed; a row missing `Group Email`,
`Group Name` or `Description` raises before the `try`, the `KeyError`
propagates out of `create_groups`, and subsequent rows are not
processed. -/
theorem c2_amended (svc : Service) (r : Row) (rest : List Row) :
    (bodyComplete r → rowGet r "Owners" = none →
      errLog (geOf r) ∈ rowTrace svc r ∧
      create_groups svc (r :: rest) =
        (rowTrace svc r ++ (create_groups svc rest).1,
          (create_groups svc rest).2)) ∧
    (¬ bodyComplete r →
      ∃ k, create_groups svc (r :: rest) = ([], some (PyErr.keyError k))) := by
  constructor
  · intro hbc hnoOwn
    constructor
    · obtain ⟨h1, h2, h3⟩ := hbc
      rw [Option.isSome_iff_exists] at h1 h2 h3
      obtain ⟨ge, hge⟩ := h1
      obtain ⟨gn, hgn⟩ := h2
      obtain ⟨de, hde⟩ := h3
      have hgeo : geOf r = ge := by simp [geOf, hge]
      by_cases hs : svc (Event.groupInsert ⟨ge, gn, de⟩) <;>
        simp [rowTrace, processRow, hge, hgn, hde, hnoOwn, hs, hgeo]
    · simp [create_groups, processRow_eq svc r hbc]
  · intro hnb
    cases hge : rowGet r "Group Email" with
    | none =>
      exact ⟨"Group Email", by simp [create_groups, processRow, hge]⟩
    | some ge =>
      cases hgn : rowGet r "Group Name" with
      | none =>
        exact ⟨"Group Name", by simp [create_groups, processRow, hge, hgn]⟩
      | some gn =>
        cases hde : rowGet r "Description" with
        | none =>
          exact ⟨"Description",
            by simp [create_groups, processRow, hge, hgn, hde]⟩
        | some de =>
          exact absurd ⟨by simp [hge], by simp [hgn], by simp [hde]⟩ hnb

theorem c2_amended_witness :
    (errLog (geOf rowNoOwners) ∈ rowTrace svcAllOk rowNoOwners ∧
      create_groups svcAllOk [rowNoOwners, row1] =
        (rowTrace svcAllOk rowNoOwners ++
            (create_groups svcAllOk [row1]).1,
          (create_groups svcAllOk [row1]).2)) ∧
    ∃ k, create_groups svcAllOk [rowNoDescription] =
      ([], some (PyErr.keyError k)) :=
  ⟨(c2_amended svcAllOk rowNoOwners [row1]).1 (by decide) (by decide),
    (c2_amended svcAllOk rowNoDescription []).2 (by decide)⟩

/-- C9: for a well-formed row, the group insert is the first event of
the row's iteration; when the group insert raises, no member insert is
attempted; the member-insert events are an order-preserving prefix of
the one-call-per-owner list (so each remaining owner after a failure is
skipped, none is attempted twice); and every member insert except
possibly the last one attempted succeeded — i.e. after a member insert
raises, no further member insert happens in that row. -/
theorem c9_group_before_members (svc : Service) (row : Row)
    (h : wellFormed row) :
    (rowTrace svc row).head? = some (groupEv row) ∧
    (svc (groupEv row) = false → memberEvents (rowTrace svc row) = []) ∧
    memberEvents (rowTrace svc row) <+:
      (ownersOf row).map (mkMem (geOf row)) ∧
    (∀ pre ev post, memberEvents (rowTrace svc row) = pre ++ ev :: post →
      post ≠ [] → svc ev = true) := by
  have hbc := wellFormed_bodyComplete h
  refine ⟨rowTrace_head svc row hbc, ?_, ?_, ?_⟩
  · intro hfail
    rw [memberEvents_rowTrace svc row hbc, if_neg (by simp [hfail])]
  · rw [memberEvents_rowTrace svc row hbc]
    by_cases hs : svc (groupEv row)
    · rw [if_pos hs, memberLoop_fst svc (geOf row) (ownersOf row)]
      exact (attempted_isPre svc (geOf row) (ownersOf row)).map (mkMem (geOf row))
    · rw [if_neg hs]
      exact List.nil_prefix
  · intro pre ev post hsplit hne
    rw [memberEvents_rowTrace svc row hbc] at hsplit
    by_cases hs : svc (groupEv row)
    · rw [if_pos hs] at hsplit
      exact memberLoop_init_ok svc (geOf row) (ownersOf row) pre ev post
        hsplit hne
    · rw [if_neg hs] at hsplit
      exact absurd hsplit.symm (List.append_ne_nil_of_right_ne_nil _
        (List.cons_ne_nil _ _))

theorem c9_witness :
    (rowTrace svcGroupFail row1).head? = some (groupEv row1) ∧
    memberEvents (rowTrace svcGroupFail row1) = [] := by
  have h := c9_group_before_members svcGroupFail row1 (by decide)
  exact ⟨h.1, h.2.1 rfl⟩

end SetupWorkspace

namespace QuickAuth

theorem trySAs_eq (env : AuthEnv) (ps : List String) :
    trySAs env ps =
      specRun env ((ps.filter env.fileExists).map AuthMethod.serviceAccount) := by
  induction ps with
  | nil => rfl
  | cons p rest ih =>
    by_cases hex : env.fileExists p
    · by_cases hok : methodOk env (AuthMethod.serviceAccount p) <;>
        simp [trySAs, specRun, hex, hok, ih]
    · simp [trySAs, hex, ih]

theorem specRun_trace_none (env : AuthEnv) (ms : List AuthMethod)
    (h : (specRun env ms).2 = none) :
    (specRun env ms).1 = ms ∧ ∀ m ∈ ms, methodOk env m = false := by
  induction ms with
  | nil => simp [specRun]
  | cons m0 rest ih =>
    by_cases h0 : methodOk env m0
    · simp [specRun, h0] at h
    · simp only [specRun, if_neg h0] at h ⊢
      obtain ⟨h1, h2⟩ := ih h
      refine ⟨by simp [h1], ?_⟩
      intro m hm
      rcases List.mem_cons.mp hm with hm | hm
      · exact hm ▸ Bool.not_eq_true _ ▸ (by simpa using h0)
      · exact h2 m hm

theorem specRun_all_fail (env : AuthEnv) (ms : List AuthMethod)
    (h : ∀ m ∈ ms, methodOk env m = false) :
    specRun env ms = (ms, none) := by
  induction ms with
  | nil => rfl
  | cons m0 rest ih =>
    have h0 : methodOk env m0 = false := h m0 (by simp)
    have hrest : ∀ m ∈ rest, methodOk env m = false :=
      fun m hm => h m (by simp [hm])
    simp [specRun, h0, ih hrest]

theorem specRun_append_none (env : AuthEnv) (xs ys : List AuthMethod)
    (h : (specRun env xs).2 = none) :
    specRun env (xs ++ ys) =
      (xs ++ (specRun env ys).1, (specRun env ys).2) := by
  induction xs with
  | nil => simp
  | cons x rest ih =>
    by_cases hx : methodOk env x
    · simp [specRun, hx] at h
    · simp only [specRun, if_neg hx] at h ⊢
      simp [ih h]

theorem specRun_append_some (env : AuthEnv) (xs ys : List AuthMethod)
    (m : AuthMethod) (h : (specRun env xs).2 = some m) :
    specRun env (xs ++ ys) = specRun env xs := by
  induction xs with
  | nil => simp [specRun] at h
  | cons x rest ih =>
    by_cases hx : methodOk env x
    · simp [specRun, hx]
    · simp only [specRun, if_neg hx] at h ⊢
      simp [ih h]

theorem specRun_isPre (env : AuthEnv) (ms : List AuthMethod) :
    (specRun env ms).1 <+: ms := by
  induction ms with
  | nil => simp [specRun]
  | cons m0 rest ih =>
    by_cases h0 : methodOk env m0
    · simp only [specRun, if_pos h0]
      exact ⟨rest, rfl⟩
    · simp only [specRun, if_neg h0]
      obtain ⟨t, ht⟩ := ih
      exact ⟨t, by rw [List.cons_append, ht]⟩

theorem specRun_some_spec (env : AuthEnv) (ms : List AuthMethod)
    (m : AuthMethod) (h : (specRun env ms).2 = some m) :
    methodOk env m = true ∧ (specRun env ms).1.getLast? = some m ∧
    ∀ m' ∈ (specRun env ms).1, m' ≠ m → methodOk env m' = false := by
  induction ms with
  | nil => simp [specRun] at h
  | cons m0 rest ih =>
    by_cases h0 : methodOk env m0
    · simp only [specRun, if_pos h0] at h ⊢
      obtain rfl : m0 = m := by simpa using h
      simp [h0]
    · simp only [specRun, if_neg h0] at h ⊢
      obtain ⟨ih1, ih2, ih3⟩ := ih h
      refine ⟨ih1, ?_, ?_⟩
      · cases hr : (specRun env rest).1 with
        | nil => rw [hr] at ih2; simp at ih2
        | cons b t =>
          rw [hr] at ih2
          rw [List.getLast?_cons_cons]
          exact ih2
      · intro m' hm' hne
        rcases List.mem_cons.mp hm' with hm' | hm'
        · exact hm' ▸ Bool.not_eq_true _ ▸ (by simpa using h0)
        · exact ih3 m' hm' hne

theorem specAttemptList_eq (env : AuthEnv) :
    specAttemptList env =
      AuthMethod.adc ::
        ((sa_paths.filter env.fileExists).map AuthMethod.serviceAccount ++
          [AuthMethod.gcloud]) := by
  simp only [specAttemptList, List.filter_cons, List.filter_append,
    List.filter_map]
  rfl

theorem try_authentication_eq (env : AuthEnv) :
    try_authentication env =
      ((specRun env (specAttemptList env)).1,
        ((specRun env (specAttemptList env)).2).map credOf) := by
  rw [specAttemptList_eq]
  by_cases hadc : methodOk env AuthMethod.adc
  · simp [try_authentication, specRun, hadc, credOf]
  · simp only [try_authentication, if_neg hadc, specRun,
      trySAs_eq env sa_paths]
    cases hsa :
        (specRun env
          ((sa_paths.filter env.fileExists).map AuthMethod.serviceAccount)).2 with
    | some m =>
      rw [specRun_append_some env _ [AuthMethod.gcloud] m hsa]
      simp [hsa]
    | none =>
      rw [specRun_append_none env _ [AuthMethod.gcloud] hsa]
      have h1 := (specRun_trace_none env _ hsa).1
      by_cases hg : methodOk env AuthMethod.gcloud <;>
        simp [specRun, hg, h1, credOf]

end QuickAuth

namespace QuickAuth

theorem methodOk_probe (env : AuthEnv) (m : AuthMethod)
    (h : methodOk env m = true) : env.probeOk (credOf m) = true := by
  cases m <;> simp [methodOk, credOf, Bool.and_eq_true] at h ⊢ <;>
    exact h.2

/-- C3: `try_authentication` is exactly the spec's ordered strategy
list — ADC, then each service-account path whose file exists in listed
order, then the gcloud CLI login — evaluated until the first success
(the refinement equality with `specRun`); its attempt trace never
repeats a method; it returns `none` (the `(None, None)` pair) precisely
when every method in the chain fails; and a returned credential comes
from a succeeding method, which is the last one attempted, every other
attempted method having failed. -/
theorem c3_fallback_order (env : AuthEnv) :
    try_authentication env =
      ((specRun env (specAttemptList env)).1,
        ((specRun env (specAttemptList env)).2).map credOf) ∧
    (try_authentication env).1.Nodup ∧
    ((try_authentication env).2 = none ↔
      ∀ m ∈ specAttemptList env, methodOk env m = false) ∧
    (∀ c, (try_authentication env).2 = some c →
      ∃ m, methodOk env m = true ∧ credOf m = c ∧
        (try_authentication env).1.getLast? = some m ∧
        ∀ m' ∈ (try_authentication env).1, m' ≠ m →
          methodOk env m' = false) := by
  have heq := try_authentication_eq env
  refine ⟨heq, ?_, ⟨?_, ?_⟩, ?_⟩
  · rw [heq]
    have hbase : (AuthMethod.adc ::
        (sa_paths.map AuthMethod.serviceAccount) ++
          [AuthMethod.gcloud]).Nodup := by decide
    have hfil : (specAttemptList env).Nodup := hbase.filter _
    exact List.Sublist.nodup ((specRun_isPre env _).sublist) hfil
  · intro hnone
    rw [heq] at hnone
    simp only [Option.map_eq_none'] at hnone
    exact (specRun_trace_none env _ hnone).2
  · intro hall
    rw [heq]
    simp [specRun_all_fail env _ hall]
  · intro c hc
    rw [heq] at hc
    simp only [Option.map_eq_some'] at hc
    obtain ⟨m, hm, hcred⟩ := hc
    obtain ⟨h1, h2, h3⟩ := specRun_some_spec env _ m hm
    exact ⟨m, h1, hcred, by rw [heq]; exact h2, by rw [heq]; exact h3⟩

theorem c3_witness :
    (try_authentication envAllFail).2 = none ∧
    (try_authentication envAllFail).1 =
      [AuthMethod.adc, AuthMethod.gcloud] :=
  ⟨((c3_fallback_order envAllFail).2.2.1).mpr (by decide), by decide⟩

/-- C10: a non-`None` result of `try_authentication` always carries a
credential whose domains-list probe succeeded: every return site first
runs the domains-list probe `service.domains().list(...).execute()` on the
service built from that credential. -/
theorem c10_probe_guard (env : AuthEnv) (c : Cred)
    (h : (try_authentication env).2 = some c) :
    env.probeOk c = true := by
  rw [try_authentication_eq env] at h
  simp only [Option.map_eq_some'] at h
  obtain ⟨m, hm, hcred⟩ := h
  exact hcred ▸ methodOk_probe env m (specRun_some_spec env _ m hm).1

theorem c10_witness : envAllOk.probeOk Cred.adcCred = true :=
  c10_probe_guard envAllOk Cred.adcCred (by decide)

end QuickAuth
